import Mathlib

/-!
Shallow embedding of the brainfuck interpreter crate (`src/interpreter/src/lib.rs`)
and verification of its specification.

Modelling conventions:
* Rust machine integers are modelled as `Nat` with explicit wrapping / checked
  arithmetic: `usize` arithmetic wraps at `2 ^ 64` (`*x += 1` on a `usize` in a
  release build wraps), `u8` arithmetic wraps at `256`; `checked_add` /
  `checked_sub` return `Option Nat`.
* The tape `[u8; 30_000]` is a `List Nat` (each cell `< 256`); reads are
  `List.getD` and writes are `List.set`, which match the Rust indexing on the
  in-bounds states the interpreter actually reaches.
* The `Box<dyn io::Read>` input handle is a `List ReadEvent`: each successful
  1-byte `read` yields `ReadEvent.byte b`, an I/O fault yields
  `ReadEvent.ioError`, and an exhausted list models end-of-stream (`read`
  returning `Ok(0)` forever, leaving the zero-initialised buffer untouched).
* The executor's `while` loop is given fuel: `execOps fuel …` returns `none`
  when more than `fuel` loop iterations would be needed, and `some` of the
  Rust `Result` otherwise.
-/

namespace Brainfuck

/-- Tape length: `const MEMORY_SIZE: usize = 30_000`. -/
def MEMORY_SIZE : Nat := 30000

/-- Largest value of a `usize` (64-bit target). -/
def USIZE_MAX : Nat := 2 ^ 64 - 1

/-- The `Token` enum of the tokenizer. -/
inductive Token where
  | MoveRight
  | MoveLeft
  | Increment
  | Decrement
  | Input
  | Output
  | LoopBegin
  | LoopEnd
  | Unknown
deriving DecidableEq, Repr

/-- The `Operation` enum: the compiled, run-length-fused operation tree.
`MoveRight`/`MoveLeft` carry a `usize` count, `Increment`/`Decrement` a `u8`
count, and `Loop` owns its body. -/
inductive Operation where
  | MoveRight (count : Nat)
  | MoveLeft (count : Nat)
  | Increment (count : Nat)
  | Decrement (count : Nat)
  | Output
  | Input
  | Loop (body : List Operation)

/-- The `InterpreterError` enum.  `StdinError` drops the `io::Error` payload. -/
inductive InterpreterError where
  | ParseError (msg : String)
  | MemoryOverflow
  | PointerOverflow
  | StdinError
deriving DecidableEq, Repr

/-- Character-to-token table of `parse_source` (the `match cur` on each char). -/
def charToToken (c : Char) : Token :=
  match c with
  | '>' => Token.MoveRight
  | '<' => Token.MoveLeft
  | '+' => Token.Increment
  | '-' => Token.Decrement
  | '.' => Token.Output
  | ',' => Token.Input
  | '[' => Token.LoopBegin
  | ']' => Token.LoopEnd
  | _ => Token.Unknown

/-- Tokenization: `source.chars().map(...).filter(|t| t.ne(&Token::Unknown))`. -/
def tokenize (source : List Char) : List Token :=
  (source.map charToToken).filter (fun t => decide (t ≠ Token.Unknown))

/-- The parser's stack of in-progress operation sequences
(`LinkedList<Vec<Operation>>`).  The back of the Rust list — the sequence
currently written to by `back_mut` — is kept separately as `cur`; `rest` holds
the remaining stack, nearest enclosing sequence first.  The Rust invariant
"the stack is never empty" is thereby structural. -/
structure PState where
  cur : List Operation
  rest : List (List Operation)

/-- One iteration of the token loop of `parse_source`.  Fusion bumps the count
of the last operation in place when it has the same kind (wrapping at the
count's machine width), otherwise appends a fresh count-1 operation. -/
def step (st : PState) (t : Token) : Except InterpreterError PState :=
  match t with
  | Token.MoveRight =>
    Except.ok { st with cur :=
      match st.cur.getLast? with
      | some (Operation.MoveRight x) =>
        st.cur.dropLast ++ [Operation.MoveRight ((x + 1) % (USIZE_MAX + 1))]
      | _ => st.cur ++ [Operation.MoveRight 1] }
  | Token.MoveLeft =>
    Except.ok { st with cur :=
      match st.cur.getLast? with
      | some (Operation.MoveLeft x) =>
        st.cur.dropLast ++ [Operation.MoveLeft ((x + 1) % (USIZE_MAX + 1))]
      | _ => st.cur ++ [Operation.MoveLeft 1] }
  | Token.Increment =>
    Except.ok { st with cur :=
      match st.cur.getLast? with
      | some (Operation.Increment x) =>
        st.cur.dropLast ++ [Operation.Increment ((x + 1) % 256)]
      | _ => st.cur ++ [Operation.Increment 1] }
  | Token.Decrement =>
    Except.ok { st with cur :=
      match st.cur.getLast? with
      | some (Operation.Decrement x) =>
        st.cur.dropLast ++ [Operation.Decrement ((x + 1) % 256)]
      | _ => st.cur ++ [Operation.Decrement 1] }
  | Token.Input => Except.ok { st with cur := st.cur ++ [Operation.Input] }
  | Token.Output => Except.ok { st with cur := st.cur ++ [Operation.Output] }
  | Token.LoopBegin => Except.ok { cur := [], rest := st.cur :: st.rest }
  | Token.LoopEnd =>
    match st.rest with
    | [] => Except.error (InterpreterError.ParseError "Unexpected end of loop")
    | prev :: tail =>
      Except.ok { cur := prev ++ [Operation.Loop st.cur], rest := tail }
  | Token.Unknown =>
    Except.error (InterpreterError.ParseError "Unexpected token Unknown")

/-- The `for token in tokens` loop, with `?`-style early return. -/
def runTokens (st : PState) : List Token → Except InterpreterError PState
  | [] => Except.ok st
  | t :: ts =>
    match step st t with
    | Except.ok st' => runTokens st' ts
    | Except.error e => Except.error e

/-- The compiler `parse_source`: tokenize, fold the tokens through the stack,
then pop the final sequence and fail if any `[` is still open. -/
def parse_source (source : List Char) : Except InterpreterError (List Operation) :=
  match runTokens { cur := [], rest := [] } (tokenize source) with
  | Except.error e => Except.error e
  | Except.ok st =>
    if st.rest.isEmpty then Except.ok st.cur
    else Except.error (InterpreterError.ParseError "Expected end of loop")

/-- One event observed when the executor `read`s a single byte from its
`Box<dyn io::Read>`: either a byte arrives, or the read fails with an
`io::Error`.  An exhausted list models end-of-stream (`read` returns `Ok(0)`
and the 1-byte zero-initialised buffer is left untouched). -/
inductive ReadEvent where
  | byte (b : Nat)
  | ioError
deriving DecidableEq, Repr

/-- The `Program` struct: tape, pointer, input handle and accumulated output. -/
structure Program where
  memory : List Nat
  pointer : Nat
  stdin : List ReadEvent
  stdout : String

/-- The constructor `Program::new`: zeroed tape, pointer 0, empty output. -/
def Program.new (stdin : List ReadEvent) : Program :=
  { memory := List.replicate MEMORY_SIZE 0
    pointer := 0
    stdin := stdin
    stdout := "" }

/-- `usize::checked_add`. -/
def checkedAddUsize (a b : Nat) : Option Nat :=
  if a + b ≤ USIZE_MAX then some (a + b) else none

/-- `u8::checked_add`. -/
def checkedAddU8 (a b : Nat) : Option Nat :=
  if a + b ≤ 255 then some (a + b) else none

/-- `checked_sub` (same condition for `usize` and `u8`). -/
def checkedSub (a b : Nat) : Option Nat :=
  if b ≤ a then some (a - b) else none

/-- The Rust cell read `self.memory[self.pointer]` (defaults to 0 out of
bounds; the executor in fact never reads out of bounds — see the pointer
invariant). -/
def Program.cell (s : Program) : Nat := s.memory.getD s.pointer 0

/-- The executor `Program::process_operations`: walk the operation list,
mutating the state, with `?`-style propagation of the first error.  The Rust
`while self.memory[self.pointer] != 0` loop is unrolled one guard check at a
time; `fuel` bounds the number of loop iterations taken along the run and the
result is `none` when the fuel is exhausted (the Rust code simply keeps
running). -/
def execOps (fuel : Nat) (s : Program) :
    List Operation → Option (Except InterpreterError Program)
  | [] => some (Except.ok s)
  | op :: rest =>
    match op with
    | Operation.MoveLeft count =>
      match checkedSub s.pointer count with
      | none => some (Except.error InterpreterError.PointerOverflow)
      | some p => execOps fuel { s with pointer := p } rest
    | Operation.MoveRight count =>
      match checkedAddUsize s.pointer count with
      | none => some (Except.error InterpreterError.PointerOverflow)
      | some p =>
        if s.memory.length ≤ p then
          some (Except.error InterpreterError.PointerOverflow)
        else
          execOps fuel { s with pointer := p } rest
    | Operation.Increment count =>
      match checkedAddU8 s.cell count with
      | none => some (Except.error InterpreterError.MemoryOverflow)
      | some v => execOps fuel { s with memory := s.memory.set s.pointer v } rest
    | Operation.Decrement count =>
      match checkedSub s.cell count with
      | none => some (Except.error InterpreterError.MemoryOverflow)
      | some v => execOps fuel { s with memory := s.memory.set s.pointer v } rest
    | Operation.Input =>
      match s.stdin with
      | [] => execOps fuel { s with memory := s.memory.set s.pointer 0 } rest
      | ReadEvent.ioError :: _ => some (Except.error InterpreterError.StdinError)
      | ReadEvent.byte b :: tail =>
        execOps fuel
          { s with memory := s.memory.set s.pointer (b % 256), stdin := tail } rest
    | Operation.Output =>
      execOps fuel { s with stdout := s.stdout.push (Char.ofNat s.cell) } rest
    | Operation.Loop body =>
      if s.cell = 0 then
        execOps fuel s rest
      else
        match fuel with
        | 0 => none
        | f + 1 =>
          match execOps f s body with
          | some (Except.ok s') => execOps f s' (Operation.Loop body :: rest)
          | r => r
termination_by ops => (fuel, ops.length)
decreasing_by all_goals (simp_wf; omega)

/-- The public entry point `interpret`: parse, build a fresh `Program`, then
`execute` (which runs `process_operations` and returns the output buffer). -/
def interpret (fuel : Nat) (source : String) (stdin : List ReadEvent) :
    Option (Except InterpreterError String) :=
  match parse_source source.data with
  | Except.error e => some (Except.error e)
  | Except.ok operations =>
    match execOps fuel (Program.new stdin) operations with
    | none => none
    | some (Except.error e) => some (Except.error e)
    | some (Except.ok s) => some (Except.ok s.stdout)

/-! ## Bracket balance (spec-side definition and parser lemmas) -/

/-- Modelled from the spec's words "loop delimiters are correctly balanced and
nested": scanning left to right, the nesting depth never goes negative at a
`]` and ends at zero.  Characters other than `[` and `]` are ignored. -/
def balancedAux : List Char → Nat → Bool
  | [], d => d == 0
  | c :: cs, d =>
    if c = '[' then balancedAux cs (d + 1)
    else if c = ']' then
      match d with
      | 0 => false
      | d' + 1 => balancedAux cs d'
    else balancedAux cs d

/-- A source string has correctly balanced and nested loop delimiters. -/
def balanced (source : List Char) : Bool := balancedAux source 0

/-- Token-level counterpart of `balancedAux` (an `Unknown` token would make
the parser fail, so it counts as unbalanced). -/
def tokBal : List Token → Nat → Bool
  | [], d => d == 0
  | Token.LoopBegin :: ts, d => tokBal ts (d + 1)
  | Token.LoopEnd :: ts, d =>
    match d with
    | 0 => false
    | d' + 1 => tokBal ts d'
  | Token.Unknown :: _, _ => false
  | _ :: ts, d => tokBal ts d

/-- Whether a parser run ends in a state that `parse_source` accepts. -/
def pOk : Except InterpreterError PState → Bool
  | Except.ok st => st.rest.isEmpty
  | Except.error _ => false

/-- Whether an `Except` is `ok`. -/
def exceptIsOk {ε α : Type} : Except ε α → Bool
  | Except.ok _ => true
  | Except.error _ => false

theorem pOk_runTokens : ∀ (ts : List Token) (st : PState),
    pOk (runTokens st ts) = tokBal ts st.rest.length := by
  intro ts
  induction ts with
  | nil =>
    intro st
    obtain ⟨cur, rest⟩ := st
    cases rest with
    | nil => rfl
    | cons r rs => rfl
  | cons t ts ih =>
    intro st
    obtain ⟨cur, rest⟩ := st
    cases t with
    | MoveRight => exact ih _
    | MoveLeft => exact ih _
    | Increment => exact ih _
    | Decrement => exact ih _
    | Input => exact ih _
    | Output => exact ih _
    | LoopBegin => exact ih _
    | LoopEnd =>
      cases rest with
      | nil => rfl
      | cons prev tail => exact ih _
    | Unknown => rfl

theorem charToToken_loopBegin {c : Char} (h : charToToken c = Token.LoopBegin) :
    c = '[' := by
  unfold charToToken at h
  split at h <;> simp_all

theorem charToToken_loopEnd {c : Char} (h : charToToken c = Token.LoopEnd) :
    c = ']' := by
  unfold charToToken at h
  split at h <;> simp_all

theorem tokBal_tokenize : ∀ (cs : List Char) (d : Nat),
    tokBal (tokenize cs) d = balancedAux cs d := by
  intro cs
  induction cs with
  | nil => intro d; rfl
  | cons c cs ih =>
    intro d
    by_cases h1 : c = '['
    · subst h1
      simpa [tokenize, balancedAux, tokBal, charToToken] using ih (d + 1)
    · by_cases h2 : c = ']'
      · subst h2
        cases d with
        | zero => simp [tokenize, balancedAux, tokBal, charToToken]
        | succ d' =>
          simpa [tokenize, balancedAux, tokBal, charToToken] using ih d'
      · cases h : charToToken c with
        | LoopBegin => exact absurd (charToToken_loopBegin h) h1
        | LoopEnd => exact absurd (charToToken_loopEnd h) h2
        | Unknown => simpa [tokenize, h, balancedAux, h1, h2] using ih d
        | MoveRight => simpa [tokenize, h, tokBal, balancedAux, h1, h2] using ih d
        | MoveLeft => simpa [tokenize, h, tokBal, balancedAux, h1, h2] using ih d
        | Increment => simpa [tokenize, h, tokBal, balancedAux, h1, h2] using ih d
        | Decrement => simpa [tokenize, h, tokBal, balancedAux, h1, h2] using ih d
        | Input => simpa [tokenize, h, tokBal, balancedAux, h1, h2] using ih d
        | Output => simpa [tokenize, h, tokBal, balancedAux, h1, h2] using ih d

theorem parse_ok_iff_balanced (source : List Char) :
    exceptIsOk (parse_source source) = balanced source := by
  have hb := tokBal_tokenize source 0
  have hp : pOk (runTokens ⟨[], []⟩ (tokenize source)) = tokBal (tokenize source) 0 :=
    pOk_runTokens (tokenize source) ⟨[], []⟩
  unfold balanced
  rw [← hb, ← hp]
  unfold parse_source
  cases runTokens ⟨[], []⟩ (tokenize source) with
  | error e => rfl
  | ok st =>
    by_cases he : st.rest.isEmpty <;> simp [he, exceptIsOk, pOk]

theorem runTokens_error_parseError :
    ∀ (ts : List Token) (st : PState) (e : InterpreterError),
    runTokens st ts = Except.error e → ∃ msg, e = InterpreterError.ParseError msg := by
  intro ts
  induction ts with
  | nil =>
    intro st e h
    exact absurd h (by simp [runTokens])
  | cons t ts ih =>
    intro st e h
    obtain ⟨cur, rest⟩ := st
    cases t with
    | MoveRight => exact ih _ _ h
    | MoveLeft => exact ih _ _ h
    | Increment => exact ih _ _ h
    | Decrement => exact ih _ _ h
    | Input => exact ih _ _ h
    | Output => exact ih _ _ h
    | LoopBegin => exact ih _ _ h
    | LoopEnd =>
      cases rest with
      | nil =>
        refine ⟨"Unexpected end of loop", ?_⟩
        have : (Except.error (InterpreterError.ParseError "Unexpected end of loop")
            : Except InterpreterError PState) = Except.error e := h
        cases this
        rfl
      | cons prev tail => exact ih _ _ h
    | Unknown =>
      refine ⟨"Unexpected token Unknown", ?_⟩
      have : (Except.error (InterpreterError.ParseError "Unexpected token Unknown")
          : Except InterpreterError PState) = Except.error e := h
      cases this
      rfl

theorem parse_source_error_parseError (source : List Char) (e : InterpreterError)
    (h : parse_source source = Except.error e) :
    ∃ msg, e = InterpreterError.ParseError msg := by
  unfold parse_source at h
  cases hr : runTokens ⟨[], []⟩ (tokenize source) with
  | error e' =>
    rw [hr] at h
    cases h
    exact runTokens_error_parseError _ _ _ hr
  | ok st =>
    rw [hr] at h
    by_cases he : st.rest.isEmpty
    · simp [he] at h
    · simp [he] at h
      exact ⟨"Expected end of loop", h.symm⟩

/-- C2: compilation succeeds if and only if the loop delimiters `[` and `]`
are correctly balanced and nested; `",[.,]"` compiles successfully, `",[.,"`
(missing `]`) and `",[.,]]"` (extra `]`) both fail with `ParseError`, and every
compilation failure is a `ParseError`. -/
theorem c2_balance_invariant :
    (∀ source : List Char, exceptIsOk (parse_source source) = balanced source) ∧
    exceptIsOk (parse_source ((",[.,]" : String).data)) = true ∧
    parse_source ((",[.," : String).data) =
      Except.error (InterpreterError.ParseError "Expected end of loop") ∧
    parse_source ((",[.,]]" : String).data) =
      Except.error (InterpreterError.ParseError "Unexpected end of loop") ∧
    (∀ (source : List Char) (e : InterpreterError),
      parse_source source = Except.error e →
      ∃ msg, e = InterpreterError.ParseError msg) :=
  ⟨parse_ok_iff_balanced, rfl, rfl, rfl, parse_source_error_parseError⟩

/-- Witness for C2: the final conjunct applied to the concrete unbalanced
source `",[."` followed by `","`. -/
theorem c2_balance_invariant_witness :
    ∃ msg, (InterpreterError.ParseError "Expected end of loop")
      = InterpreterError.ParseError msg :=
  c2_balance_invariant.2.2.2.2 ((",[.," : String).data)
    (InterpreterError.ParseError "Expected end of loop") (by rfl)

/-! ## Run-length fusion -/

theorem runTokens_run_fuse (tok : Token) (mk : Nat → Operation) (width : Nat)
    (hA : ∀ (st : PState) (x : Nat), st.cur.getLast? = some (mk x) →
      step st tok = Except.ok ⟨st.cur.dropLast ++ [mk ((x + 1) % width)], st.rest⟩) :
    ∀ (j : Nat) (cur : List Operation) (rest : List (List Operation)) (c : Nat),
      c + j < width →
      runTokens ⟨cur ++ [mk c], rest⟩ (List.replicate j tok)
        = Except.ok ⟨cur ++ [mk (c + j)], rest⟩ := by
  intro j
  induction j with
  | zero =>
    intro cur rest c h
    simp [List.replicate, runTokens]
  | succ j ih =>
    intro cur rest c h
    have hstep := hA ⟨cur ++ [mk c], rest⟩ c (List.getLast?_concat cur)
    rw [List.replicate_succ]
    simp only [runTokens, hstep, List.dropLast_concat]
    rw [Nat.mod_eq_of_lt (by omega : c + 1 < width)]
    rw [ih cur rest (c + 1) (by omega)]
    have harith : c + 1 + j = c + (j + 1) := by omega
    rw [harith]

theorem runTokens_fresh_fuse (tok : Token) (mk : Nat → Operation) (width : Nat)
    (hA : ∀ (st : PState) (x : Nat), st.cur.getLast? = some (mk x) →
      step st tok = Except.ok ⟨st.cur.dropLast ++ [mk ((x + 1) % width)], st.rest⟩)
    (hB : ∀ st : PState, (∀ x, st.cur.getLast? ≠ some (mk x)) →
      step st tok = Except.ok ⟨st.cur ++ [mk 1], st.rest⟩) :
    ∀ (st : PState) (k : Nat), 1 ≤ k → k < width →
      (∀ x, st.cur.getLast? ≠ some (mk x)) →
      runTokens st (List.replicate k tok) = Except.ok ⟨st.cur ++ [mk k], st.rest⟩ := by
  intro st k h1 h2 h3
  obtain ⟨j, rfl⟩ : ∃ j, k = j + 1 := ⟨k - 1, by omega⟩
  have hstep := hB st h3
  rw [List.replicate_succ]
  simp only [runTokens, hstep]
  rw [runTokens_run_fuse tok mk width hA j st.cur st.rest 1 (by omega)]
  have harith : 1 + j = j + 1 := by omega
  rw [harith]

theorem stepA_moveRight (st : PState) (x : Nat)
    (h : st.cur.getLast? = some (Operation.MoveRight x)) :
    step st Token.MoveRight = Except.ok
      ⟨st.cur.dropLast ++ [Operation.MoveRight ((x + 1) % (USIZE_MAX + 1))], st.rest⟩ := by
  simp [step, h]

theorem stepB_moveRight (st : PState)
    (h : ∀ x, st.cur.getLast? ≠ some (Operation.MoveRight x)) :
    step st Token.MoveRight
      = Except.ok ⟨st.cur ++ [Operation.MoveRight 1], st.rest⟩ := by
  cases hl : st.cur.getLast? with
  | none => simp [step, hl]
  | some op =>
    cases op with
    | MoveRight x => exact absurd hl (h x)
    | MoveLeft x => simp [step, hl]
    | Increment x => simp [step, hl]
    | Decrement x => simp [step, hl]
    | Output => simp [step, hl]
    | Input => simp [step, hl]
    | Loop body => simp [step, hl]

theorem stepA_moveLeft (st : PState) (x : Nat)
    (h : st.cur.getLast? = some (Operation.MoveLeft x)) :
    step st Token.MoveLeft = Except.ok
      ⟨st.cur.dropLast ++ [Operation.MoveLeft ((x + 1) % (USIZE_MAX + 1))], st.rest⟩ := by
  simp [step, h]

theorem stepB_moveLeft (st : PState)
    (h : ∀ x, st.cur.getLast? ≠ some (Operation.MoveLeft x)) :
    step st Token.MoveLeft
      = Except.ok ⟨st.cur ++ [Operation.MoveLeft 1], st.rest⟩ := by
  cases hl : st.cur.getLast? with
  | none => simp [step, hl]
  | some op =>
    cases op with
    | MoveLeft x => exact absurd hl (h x)
    | MoveRight x => simp [step, hl]
    | Increment x => simp [step, hl]
    | Decrement x => simp [step, hl]
    | Output => simp [step, hl]
    | Input => simp [step, hl]
    | Loop body => simp [step, hl]

theorem stepA_increment (st : PState) (x : Nat)
    (h : st.cur.getLast? = some (Operation.Increment x)) :
    step st Token.Increment = Except.ok
      ⟨st.cur.dropLast ++ [Operation.Increment ((x + 1) % 256)], st.rest⟩ := by
  simp [step, h]

theorem stepB_increment (st : PState)
    (h : ∀ x, st.cur.getLast? ≠ some (Operation.Increment x)) :
    step st Token.Increment
      = Except.ok ⟨st.cur ++ [Operation.Increment 1], st.rest⟩ := by
  cases hl : st.cur.getLast? with
  | none => simp [step, hl]
  | some op =>
    cases op with
    | Increment x => exact absurd hl (h x)
    | MoveRight x => simp [step, hl]
    | MoveLeft x => simp [step, hl]
    | Decrement x => simp [step, hl]
    | Output => simp [step, hl]
    | Input => simp [step, hl]
    | Loop body => simp [step, hl]

theorem stepA_decrement (st : PState) (x : Nat)
    (h : st.cur.getLast? = some (Operation.Decrement x)) :
    step st Token.Decrement = Except.ok
      ⟨st.cur.dropLast ++ [Operation.Decrement ((x + 1) % 256)], st.rest⟩ := by
  simp [step, h]

theorem stepB_decrement (st : PState)
    (h : ∀ x, st.cur.getLast? ≠ some (Operation.Decrement x)) :
    step st Token.Decrement
      = Except.ok ⟨st.cur ++ [Operation.Decrement 1], st.rest⟩ := by
  cases hl : st.cur.getLast? with
  | none => simp [step, hl]
  | some op =>
    cases op with
    | Decrement x => exact absurd hl (h x)
    | MoveRight x => simp [step, hl]
    | MoveLeft x => simp [step, hl]
    | Increment x => simp [step, hl]
    | Output => simp [step, hl]
    | Input => simp [step, hl]
    | Loop body => simp [step, hl]

/-- C1 (amended): for a run of `k` consecutive identical directional,
increment, or decrement characters that is not preceded (at the token level)
by an operation of the same kind, the parser appends exactly ONE operation
node for the whole run — not `k` separate nodes — and that node carries count
`k` provided `k` fits in the count's machine integer: `k ≤ 2^64 - 1` for
`MoveRight`/`MoveLeft` (`usize` counts) and `k ≤ 255` for
`Increment`/`Decrement` (`u8` counts, which wrap at 256).  The count is NOT
unbounded at compile time. -/
theorem c1_fusion_amended :
    (∀ (st : PState) (k : Nat), 1 ≤ k → k ≤ USIZE_MAX →
      (∀ x, st.cur.getLast? ≠ some (Operation.MoveRight x)) →
      runTokens st (List.replicate k Token.MoveRight)
        = Except.ok ⟨st.cur ++ [Operation.MoveRight k], st.rest⟩) ∧
    (∀ (st : PState) (k : Nat), 1 ≤ k → k ≤ USIZE_MAX →
      (∀ x, st.cur.getLast? ≠ some (Operation.MoveLeft x)) →
      runTokens st (List.replicate k Token.MoveLeft)
        = Except.ok ⟨st.cur ++ [Operation.MoveLeft k], st.rest⟩) ∧
    (∀ (st : PState) (k : Nat), 1 ≤ k → k ≤ 255 →
      (∀ x, st.cur.getLast? ≠ some (Operation.Increment x)) →
      runTokens st (List.replicate k Token.Increment)
        = Except.ok ⟨st.cur ++ [Operation.Increment k], st.rest⟩) ∧
    (∀ (st : PState) (k : Nat), 1 ≤ k → k ≤ 255 →
      (∀ x, st.cur.getLast? ≠ some (Operation.Decrement x)) →
      runTokens st (List.replicate k Token.Decrement)
        = Except.ok ⟨st.cur ++ [Operation.Decrement k], st.rest⟩) := by
  refine ⟨?_, ?_, ?_, ?_⟩
  · intro st k h1 h2 h3
    exact runTokens_fresh_fuse Token.MoveRight Operation.MoveRight (USIZE_MAX + 1)
      stepA_moveRight stepB_moveRight st k h1 (by omega) h3
  · intro st k h1 h2 h3
    exact runTokens_fresh_fuse Token.MoveLeft Operation.MoveLeft (USIZE_MAX + 1)
      stepA_moveLeft stepB_moveLeft st k h1 (by omega) h3
  · intro st k h1 h2 h3
    exact runTokens_fresh_fuse Token.Increment Operation.Increment 256
      stepA_increment stepB_increment st k h1 (by omega) h3
  · intro st k h1 h2 h3
    exact runTokens_fresh_fuse Token.Decrement Operation.Decrement 256
      stepA_decrement stepB_decrement st k h1 (by omega) h3

/-- Witness for C1 (amended): a fresh run of three `+` tokens compiles to the
single node `Increment 3`. -/
theorem c1_fusion_amended_witness :
    runTokens ⟨[], []⟩ (List.replicate 3 Token.Increment)
      = Except.ok ⟨[Operation.Increment 3], []⟩ :=
  c1_fusion_amended.2.2.1 ⟨[], []⟩ 3 (by omega) (by omega) (by simp)

set_option maxRecDepth 4096 in
/-- Counterexample for C1 as stated: a run of 256 consecutive `+` characters
does not compile to a node carrying count 256 — the `u8` run-length count
wraps, leaving the single node `Increment 0`. -/
theorem c1_counterexample :
    parse_source (List.replicate 256 '+') = Except.ok [Operation.Increment 0] ∧
    parse_source (List.replicate 256 '+') ≠ Except.ok [Operation.Increment 256] := by
  have h : parse_source (List.replicate 256 '+') = Except.ok [Operation.Increment 0] := by
    rfl
  refine ⟨h, ?_⟩
  rw [h]
  intro hc
  simp at hc

/-! ## Comment characters -/

/-- Membership in the eight-character instruction table of the spec. -/
def isInstructionChar (c : Char) : Bool :=
  c == '>' || c == '<' || c == '+' || c == '-' ||
  c == '.' || c == ',' || c == '[' || c == ']'

theorem charToToken_unknown_iff (c : Char) :
    charToToken c = Token.Unknown ↔ isInstructionChar c = false := by
  unfold charToToken isInstructionChar
  split <;> simp_all

theorem tokenize_filter (source : List Char) :
    tokenize (source.filter isInstructionChar) = tokenize source := by
  induction source with
  | nil => rfl
  | cons c cs ih =>
    by_cases h : isInstructionChar c
    · have ht : ¬ charToToken c = Token.Unknown := by
        rw [charToToken_unknown_iff]
        simp [h]
      simp [List.filter_cons, h, tokenize, List.map_cons, ht]
      simpa [tokenize] using ih
    · have ht : charToToken c = Token.Unknown := by
        rw [charToToken_unknown_iff]
        simpa using h
      simp [List.filter_cons, h, tokenize, List.map_cons, ht]
      simpa [tokenize] using ih

theorem parse_source_filter (source : List Char) :
    parse_source (source.filter isInstructionChar) = parse_source source := by
  unfold parse_source
  rw [tokenize_filter]

/-- C7: characters outside the eight-character instruction table produce no
token, so compiling (and interpreting) a source gives the same result as
compiling the source with all such characters removed. -/
theorem c7_comments_ignored :
    (∀ source : List Char,
      parse_source (source.filter isInstructionChar) = parse_source source) ∧
    (∀ (fuel : Nat) (source : String) (stdin : List ReadEvent),
      interpret fuel (String.mk (source.data.filter isInstructionChar)) stdin
        = interpret fuel source stdin) := by
  refine ⟨parse_source_filter, ?_⟩
  intro fuel source stdin
  unfold interpret
  rw [show (String.mk (source.data.filter isInstructionChar)).data
      = source.data.filter isInstructionChar from rfl]
  rw [parse_source_filter]

/-- C8: the core is deterministic and pure — equal source and equal input
stream give equal results, and every invocation starts from a freshly
constructed state (zeroed 30,000-cell tape, pointer 0, empty output). -/
theorem c8_deterministic_pure :
    (∀ (fuel : Nat) (source : String) (in1 in2 : List ReadEvent),
      in1 = in2 → interpret fuel source in1 = interpret fuel source in2) ∧
    (∀ stdin : List ReadEvent,
      Program.new stdin =
        { memory := List.replicate MEMORY_SIZE 0, pointer := 0,
          stdin := stdin, stdout := "" }) :=
  ⟨fun _ _ _ _ h => by rw [h], fun _ => rfl⟩

/-- Witness for C8 at a concrete source and input stream. -/
theorem c8_deterministic_pure_witness :
    interpret 1 "+" [ReadEvent.byte 7] = interpret 1 "+" [ReadEvent.byte 7] :=
  c8_deterministic_pure.1 1 "+" [ReadEvent.byte 7] [ReadEvent.byte 7] rfl

/-! ## Executor step lemmas -/

theorem getD_set_self (l : List Nat) (i v : Nat) (h : i < l.length) :
    (l.set i v).getD i 0 = v := by
  simp [List.getD_eq_getElem?_getD, List.getElem?_set_self, h]

theorem getD_set_ne (l : List Nat) (i j v : Nat) (h : i ≠ j) :
    (l.set i v).getD j 0 = l.getD j 0 := by
  simp [List.getD_eq_getElem?_getD, List.getElem?_set_ne, h]

theorem execOps_nil (fuel : Nat) (s : Program) :
    execOps fuel s [] = some (Except.ok s) := by
  simp [execOps]

theorem execOps_moveLeft (fuel : Nat) (s : Program) (n : Nat) (rest : List Operation) :
    execOps fuel s (Operation.MoveLeft n :: rest)
      = if n ≤ s.pointer
          then execOps fuel { s with pointer := s.pointer - n } rest
          else some (Except.error InterpreterError.PointerOverflow) := by
  by_cases hc : n ≤ s.pointer <;> simp [execOps, checkedSub, hc]

theorem execOps_moveRight (fuel : Nat) (s : Program) (n : Nat) (rest : List Operation) :
    execOps fuel s (Operation.MoveRight n :: rest)
      = if s.pointer + n ≤ USIZE_MAX then
          (if s.memory.length ≤ s.pointer + n
            then some (Except.error InterpreterError.PointerOverflow)
            else execOps fuel { s with pointer := s.pointer + n } rest)
        else some (Except.error InterpreterError.PointerOverflow) := by
  by_cases hc : s.pointer + n ≤ USIZE_MAX
  · by_cases hb : s.memory.length ≤ s.pointer + n <;>
      simp [execOps, checkedAddUsize, hc, hb]
  · simp [execOps, checkedAddUsize, hc]

theorem execOps_increment (fuel : Nat) (s : Program) (n : Nat) (rest : List Operation) :
    execOps fuel s (Operation.Increment n :: rest)
      = if s.cell + n ≤ 255
          then execOps fuel { s with memory := s.memory.set s.pointer (s.cell + n) } rest
          else some (Except.error InterpreterError.MemoryOverflow) := by
  by_cases hc : s.cell + n ≤ 255 <;> simp [execOps, checkedAddU8, hc]

theorem execOps_decrement (fuel : Nat) (s : Program) (n : Nat) (rest : List Operation) :
    execOps fuel s (Operation.Decrement n :: rest)
      = if n ≤ s.cell
          then execOps fuel { s with memory := s.memory.set s.pointer (s.cell - n) } rest
          else some (Except.error InterpreterError.MemoryOverflow) := by
  by_cases hc : n ≤ s.cell <;> simp [execOps, checkedSub, hc]

theorem execOps_input (fuel : Nat) (s : Program) (rest : List Operation) :
    execOps fuel s (Operation.Input :: rest)
      = match s.stdin with
        | [] => execOps fuel { s with memory := s.memory.set s.pointer 0 } rest
        | ReadEvent.ioError :: _ => some (Except.error InterpreterError.StdinError)
        | ReadEvent.byte b :: tail =>
          execOps fuel
            { s with memory := s.memory.set s.pointer (b % 256), stdin := tail } rest := by
  obtain ⟨mem, p, stdin, out⟩ := s
  cases stdin with
  | nil => simp [execOps]
  | cons ev tail => cases ev <;> simp [execOps]

theorem execOps_output (fuel : Nat) (s : Program) (rest : List Operation) :
    execOps fuel s (Operation.Output :: rest)
      = execOps fuel { s with stdout := s.stdout.push (Char.ofNat s.cell) } rest := by
  simp [execOps]

theorem execOps_loop_zero (fuel : Nat) (s : Program) (body rest : List Operation)
    (h : s.cell = 0) :
    execOps fuel s (Operation.Loop body :: rest) = execOps fuel s rest := by
  cases fuel with
  | zero => simp [execOps, h]
  | succ f => simp [execOps, h]

theorem execOps_loop_iter (f : Nat) (s : Program) (body rest : List Operation)
    (h : s.cell ≠ 0) :
    execOps (f + 1) s (Operation.Loop body :: rest)
      = match execOps f s body with
        | some (Except.ok s') => execOps f s' (Operation.Loop body :: rest)
        | r => r := by
  simp [execOps, h]

theorem execOps_loop_stuck (s : Program) (body rest : List Operation)
    (h : s.cell ≠ 0) :
    execOps 0 s (Operation.Loop body :: rest) = none := by
  simp [execOps, h]

/-- C3: `Increment n` fails with `MemoryOverflow` exactly when the current
cell plus `n` would exceed 255, and `Decrement n` fails with `MemoryOverflow`
exactly when the current cell minus `n` would go below 0; on success the cell
holds the exact sum or difference (no wrapping modulo 256). -/
theorem c3_cell_overflow :
    ∀ (fuel : Nat) (s : Program) (n : Nat), s.pointer < s.memory.length →
    (execOps fuel s [Operation.Increment n]
        = some (Except.error InterpreterError.MemoryOverflow)
      ↔ 255 < s.cell + n) ∧
    (∀ s', execOps fuel s [Operation.Increment n] = some (Except.ok s') →
      s'.cell = s.cell + n) ∧
    (execOps fuel s [Operation.Decrement n]
        = some (Except.error InterpreterError.MemoryOverflow)
      ↔ s.cell < n) ∧
    (∀ s', execOps fuel s [Operation.Decrement n] = some (Except.ok s') →
      s'.cell = s.cell - n) := by
  intro fuel s n hp
  refine ⟨?_, ?_, ?_, ?_⟩
  · rw [execOps_increment]
    by_cases hc : s.cell + n ≤ 255
    · rw [if_pos hc, execOps_nil]
      simp
      omega
    · rw [if_neg hc]
      simp
      omega
  · intro s' h
    rw [execOps_increment] at h
    by_cases hc : s.cell + n ≤ 255
    · rw [if_pos hc, execOps_nil] at h
      simp at h
      rw [← h]
      exact getD_set_self _ _ _ hp
    · rw [if_neg hc] at h
      simp at h
  · rw [execOps_decrement]
    by_cases hc : n ≤ s.cell
    · rw [if_pos hc, execOps_nil]
      simp
      omega
    · rw [if_neg hc]
      simp
      omega
  · intro s' h
    rw [execOps_decrement] at h
    by_cases hc : n ≤ s.cell
    · rw [if_pos hc, execOps_nil] at h
      simp at h
      rw [← h]
      exact getD_set_self _ _ _ hp
    · rw [if_neg hc] at h
      simp at h

/-- Witness for C3: incrementing a zeroed single-cell tape by 7 succeeds and
leaves the cell holding exactly 7. -/
theorem c3_cell_overflow_witness :
    (⟨[7], 0, [], ""⟩ : Program).cell = (⟨[0], 0, [], ""⟩ : Program).cell + 7 :=
  ((c3_cell_overflow 0 ⟨[0], 0, [], ""⟩ 7 (by simp)).2.1) ⟨[7], 0, [], ""⟩
    (by rw [execOps_increment]
        simp [Program.cell, execOps_nil])

/-- C4: `MoveRight n` fails with `PointerOverflow` exactly when `pointer + n`
overflows `usize` or would land at or past the 30,000-cell tape end;
`MoveLeft n` fails with `PointerOverflow` exactly when `pointer - n` would go
below zero; on success the pointer holds the exact sum or difference. -/
theorem c4_pointer_overflow :
    ∀ (fuel : Nat) (s : Program) (n : Nat), s.memory.length = MEMORY_SIZE →
    (execOps fuel s [Operation.MoveRight n]
        = some (Except.error InterpreterError.PointerOverflow)
      ↔ (USIZE_MAX < s.pointer + n ∨ MEMORY_SIZE ≤ s.pointer + n)) ∧
    (∀ s', execOps fuel s [Operation.MoveRight n] = some (Except.ok s') →
      s'.pointer = s.pointer + n) ∧
    (execOps fuel s [Operation.MoveLeft n]
        = some (Except.error InterpreterError.PointerOverflow)
      ↔ s.pointer < n) ∧
    (∀ s', execOps fuel s [Operation.MoveLeft n] = some (Except.ok s') →
      s'.pointer = s.pointer - n) := by
  intro fuel s n hm
  refine ⟨?_, ?_, ?_, ?_⟩
  · rw [execOps_moveRight, hm]
    by_cases hc : s.pointer + n ≤ USIZE_MAX
    · by_cases hb : MEMORY_SIZE ≤ s.pointer + n
      · rw [if_pos hc, if_pos hb]
        simp
        omega
      · rw [if_pos hc, if_neg hb, execOps_nil]
        simp
        omega
    · rw [if_neg hc]
      simp
      omega
  · intro s' h
    rw [execOps_moveRight, hm] at h
    by_cases hc : s.pointer + n ≤ USIZE_MAX
    · by_cases hb : MEMORY_SIZE ≤ s.pointer + n
      · rw [if_pos hc, if_pos hb] at h
        simp at h
      · rw [if_pos hc, if_neg hb, execOps_nil] at h
        simp at h
        rw [← h]
    · rw [if_neg hc] at h
      simp at h
  · rw [execOps_moveLeft]
    by_cases hc : n ≤ s.pointer
    · rw [if_pos hc, execOps_nil]
      simp
      omega
    · rw [if_neg hc]
      simp
      omega
  · intro s' h
    rw [execOps_moveLeft] at h
    by_cases hc : n ≤ s.pointer
    · rw [if_pos hc, execOps_nil] at h
      simp at h
      rw [← h]
    · rw [if_neg hc] at h
      simp at h

/-- Witness for C4: moving right by 2 from pointer 1 on the 30,000-cell tape
succeeds and lands exactly at pointer 3. -/
theorem c4_pointer_overflow_witness :
    (⟨List.replicate MEMORY_SIZE 0, 3, [], ""⟩ : Program).pointer
      = (⟨List.replicate MEMORY_SIZE 0, 1, [], ""⟩ : Program).pointer + 2 :=
  ((c4_pointer_overflow 0 ⟨List.replicate MEMORY_SIZE 0, 1, [], ""⟩ 2
      (by rw [List.length_replicate])).2.1)
    ⟨List.replicate MEMORY_SIZE 0, 3, [], ""⟩
    (by rw [execOps_moveRight]
        norm_num [USIZE_MAX, MEMORY_SIZE, execOps_nil])

/-- C5: `Input` reads exactly one byte from the input source into the current
cell, consuming it; on end-of-stream it does not fail and the cell is left
holding 0 (the value produced by the zero-filled read); it fails with
`StdinError` exactly when the underlying read reports an I/O fault. -/
theorem c5_input_semantics :
    ∀ (fuel : Nat) (s : Program), s.pointer < s.memory.length →
    (s.stdin = [] →
      execOps fuel s [Operation.Input]
        = some (Except.ok { s with memory := s.memory.set s.pointer 0 }) ∧
      ({ s with memory := s.memory.set s.pointer 0 } : Program).cell = 0) ∧
    (∀ b tail, s.stdin = ReadEvent.byte b :: tail →
      execOps fuel s [Operation.Input]
        = some (Except.ok
            { s with memory := s.memory.set s.pointer (b % 256), stdin := tail }) ∧
      ({ s with memory := s.memory.set s.pointer (b % 256), stdin := tail }
          : Program).cell = b % 256) ∧
    (execOps fuel s [Operation.Input] = some (Except.error InterpreterError.StdinError)
      ↔ ∃ tail, s.stdin = ReadEvent.ioError :: tail) := by
  intro fuel s hp
  refine ⟨?_, ?_, ?_⟩
  · intro he
    rw [execOps_input, he]
    exact ⟨execOps_nil _ _, getD_set_self _ _ _ hp⟩
  · intro b tail he
    rw [execOps_input, he]
    exact ⟨execOps_nil _ _, getD_set_self _ _ _ hp⟩
  · rw [execOps_input]
    cases he : s.stdin with
    | nil => simp [execOps_nil]
    | cons ev tail =>
      cases ev with
      | byte b => simp [execOps_nil]
      | ioError => simp

/-- Witness for C5: on an exhausted input stream, `Input` succeeds and the
cell is left holding 0. -/
theorem c5_input_semantics_witness :
    execOps 0 (⟨[9], 0, [], ""⟩ : Program) [Operation.Input]
      = some (Except.ok
          { (⟨[9], 0, [], ""⟩ : Program) with memory := ([9] : List Nat).set 0 0 }) ∧
    ({ (⟨[9], 0, [], ""⟩ : Program) with memory := ([9] : List Nat).set 0 0 }
        : Program).cell = 0 :=
  (c5_input_semantics 0 ⟨[9], 0, [], ""⟩ (by simp)).1 rfl

/-- C6: a loop runs its body to completion while the guard cell is non-zero,
re-checking the cell only after each full body pass; a failure inside the body
propagates out immediately; and when the guard cell is zero on entry the body
runs zero times and the whole state (tape, pointer, output, input stream) is
left unchanged. -/
theorem c6_loop_semantics :
    (∀ (fuel : Nat) (s : Program) (body rest : List Operation),
      s.cell = 0 →
      execOps fuel s (Operation.Loop body :: rest) = execOps fuel s rest) ∧
    (∀ (fuel : Nat) (s : Program) (body : List Operation),
      s.cell = 0 →
      execOps fuel s [Operation.Loop body] = some (Except.ok s)) ∧
    (∀ (f : Nat) (s s' : Program) (body rest : List Operation),
      s.cell ≠ 0 →
      execOps f s body = some (Except.ok s') →
      execOps (f + 1) s (Operation.Loop body :: rest)
        = execOps f s' (Operation.Loop body :: rest)) ∧
    (∀ (f : Nat) (e : InterpreterError) (s : Program) (body rest : List Operation),
      s.cell ≠ 0 →
      execOps f s body = some (Except.error e) →
      execOps (f + 1) s (Operation.Loop body :: rest) = some (Except.error e)) := by
  refine ⟨?_, ?_, ?_, ?_⟩
  · intro fuel s body rest h
    exact execOps_loop_zero fuel s body rest h
  · intro fuel s body h
    rw [execOps_loop_zero fuel s body [] h, execOps_nil]
  · intro f s s' body rest h hb
    rw [execOps_loop_iter f s body rest h, hb]
  · intro f e s body rest h hb
    rw [execOps_loop_iter f s body rest h, hb]

/-- Witness for C6: with a zero guard cell, a loop with body `[Increment 1]`
leaves the state completely unchanged. -/
theorem c6_loop_semantics_witness :
    execOps 5 (⟨[0], 0, [], ""⟩ : Program) [Operation.Loop [Operation.Increment 1]]
      = some (Except.ok (⟨[0], 0, [], ""⟩ : Program)) :=
  c6_loop_semantics.2.1 5 ⟨[0], 0, [], ""⟩ [Operation.Increment 1] rfl

/-! ## Pointer invariant -/

theorem execOps_ok_pointer_lt :
    ∀ (fuel : Nat) (ops : List Operation) (s s' : Program),
      s.pointer < s.memory.length →
      execOps fuel s ops = some (Except.ok s') →
      s'.pointer < s'.memory.length ∧ s'.memory.length = s.memory.length := by
  intro fuel
  induction fuel using Nat.strong_induction_on with
  | _ fuel ihf =>
    intro ops
    induction ops with
    | nil =>
      intro s s' hp h
      rw [execOps_nil] at h
      simp at h
      subst h
      exact ⟨hp, rfl⟩
    | cons op rest ihl =>
      intro s s' hp h
      cases op with
      | MoveLeft n =>
        rw [execOps_moveLeft] at h
        by_cases hc : n ≤ s.pointer
        · rw [if_pos hc] at h
          exact ihl { s with pointer := s.pointer - n } s'
            (show s.pointer - n < s.memory.length by omega) h
        · rw [if_neg hc] at h
          simp at h
      | MoveRight n =>
        rw [execOps_moveRight] at h
        by_cases hc : s.pointer + n ≤ USIZE_MAX
        · by_cases hb : s.memory.length ≤ s.pointer + n
          · rw [if_pos hc, if_pos hb] at h
            simp at h
          · rw [if_pos hc, if_neg hb] at h
            exact ihl { s with pointer := s.pointer + n } s'
              (show s.pointer + n < s.memory.length by omega) h
        · rw [if_neg hc] at h
          simp at h
      | Increment n =>
        rw [execOps_increment] at h
        by_cases hc : s.cell + n ≤ 255
        · rw [if_pos hc] at h
          have h2 := ihl { s with memory := s.memory.set s.pointer (s.cell + n) } s'
            (show s.pointer < (s.memory.set s.pointer (s.cell + n)).length by
              simpa using hp) h
          exact ⟨h2.1, by simpa using h2.2⟩
        · rw [if_neg hc] at h
          simp at h
      | Decrement n =>
        rw [execOps_decrement] at h
        by_cases hc : n ≤ s.cell
        · rw [if_pos hc] at h
          have h2 := ihl { s with memory := s.memory.set s.pointer (s.cell - n) } s'
            (show s.pointer < (s.memory.set s.pointer (s.cell - n)).length by
              simpa using hp) h
          exact ⟨h2.1, by simpa using h2.2⟩
        · rw [if_neg hc] at h
          simp at h
      | Input =>
        rw [execOps_input] at h
        cases he : s.stdin with
        | nil =>
          rw [he] at h
          have h2 := ihl
            { s with memory := s.memory.set s.pointer 0, stdin := ([] : List ReadEvent) } s'
            (show s.pointer < (s.memory.set s.pointer 0).length by simpa using hp) h
          exact ⟨h2.1, by simpa using h2.2⟩
        | cons ev tail =>
          rw [he] at h
          cases ev with
          | byte b =>
            have h2 := ihl
              { s with memory := s.memory.set s.pointer (b % 256), stdin := tail } s'
              (show s.pointer < (s.memory.set s.pointer (b % 256)).length by
                simpa using hp) h
            exact ⟨h2.1, by simpa using h2.2⟩
          | ioError => simp at h
      | Output =>
        rw [execOps_output] at h
        exact ihl { s with stdout := s.stdout.push (Char.ofNat s.cell) } s' hp h
      | Loop body =>
        by_cases hg : s.cell = 0
        · rw [execOps_loop_zero _ _ _ _ hg] at h
          exact ihl _ s' hp h
        · cases fuel with
          | zero =>
            rw [execOps_loop_stuck _ _ _ hg] at h
            simp at h
          | succ f =>
            rw [execOps_loop_iter _ _ _ _ hg] at h
            cases hb : execOps f s body with
            | none =>
              rw [hb] at h
              simp at h
            | some r =>
              cases r with
              | error e =>
                rw [hb] at h
                simp at h
              | ok s1 =>
                rw [hb] at h
                have h1 := ihf f (by omega) body s s1 hp hb
                have h2 := ihf f (by omega) (Operation.Loop body :: rest) s1 s'
                  (by omega) h
                exact ⟨h2.1, by omega⟩

/-- C9: from the initial state (pointer 0 on the 30,000-cell zeroed tape) the
tape pointer stays strictly inside the tape across every successful
execution, so every cell access made while walking the operation tree indexes
a valid tape cell. -/
theorem c9_pointer_invariant :
    (∀ (fuel : Nat) (ops : List Operation) (s s' : Program),
      s.pointer < s.memory.length →
      execOps fuel s ops = some (Except.ok s') →
      s'.pointer < s'.memory.length ∧ s'.memory.length = s.memory.length) ∧
    (∀ stdin : List ReadEvent,
      (Program.new stdin).pointer = 0 ∧
      (Program.new stdin).memory.length = MEMORY_SIZE ∧ 0 < MEMORY_SIZE) ∧
    (∀ (fuel : Nat) (ops : List Operation) (stdin : List ReadEvent) (s' : Program),
      execOps fuel (Program.new stdin) ops = some (Except.ok s') →
      s'.pointer < MEMORY_SIZE) := by
  refine ⟨execOps_ok_pointer_lt, ?_, ?_⟩
  · intro stdin
    refine ⟨rfl, ?_, by norm_num [MEMORY_SIZE]⟩
    show (List.replicate MEMORY_SIZE 0).length = MEMORY_SIZE
    rw [List.length_replicate]
  · intro fuel ops stdin s' h
    have hlen : (Program.new stdin).memory.length = MEMORY_SIZE := by
      show (List.replicate MEMORY_SIZE 0).length = MEMORY_SIZE
      rw [List.length_replicate]
    have hp : (Program.new stdin).pointer < (Program.new stdin).memory.length := by
      rw [hlen]
      show 0 < MEMORY_SIZE
      norm_num [MEMORY_SIZE]
    have h2 := execOps_ok_pointer_lt fuel ops (Program.new stdin) s' hp h
    omega

/-- Witness for C9: the empty program run from the initial state ends with the
pointer strictly inside the 30,000-cell tape. -/
theorem c9_pointer_invariant_witness :
    (Program.new []).pointer < MEMORY_SIZE :=
  c9_pointer_invariant.2.2 0 [] [] (Program.new []) (execOps_nil 0 (Program.new []))

/-! ## Frame property -/

/-- C10: each successful non-loop operation changes at most its own state
component — `MoveRight`/`MoveLeft` leave the tape, output and input stream
unchanged; `Increment`, `Decrement` and `Input` leave the pointer, the output
and every tape cell other than the current one unchanged; `Output` leaves the
tape, pointer and input stream unchanged. -/
theorem c10_frame :
    ∀ (fuel : Nat) (s s' : Program) (n : Nat),
    (execOps fuel s [Operation.MoveRight n] = some (Except.ok s') →
      s'.memory = s.memory ∧ s'.stdout = s.stdout ∧ s'.stdin = s.stdin) ∧
    (execOps fuel s [Operation.MoveLeft n] = some (Except.ok s') →
      s'.memory = s.memory ∧ s'.stdout = s.stdout ∧ s'.stdin = s.stdin) ∧
    (execOps fuel s [Operation.Increment n] = some (Except.ok s') →
      s'.pointer = s.pointer ∧ s'.stdout = s.stdout ∧ s'.stdin = s.stdin ∧
      ∀ i, i ≠ s.pointer → s'.memory.getD i 0 = s.memory.getD i 0) ∧
    (execOps fuel s [Operation.Decrement n] = some (Except.ok s') →
      s'.pointer = s.pointer ∧ s'.stdout = s.stdout ∧ s'.stdin = s.stdin ∧
      ∀ i, i ≠ s.pointer → s'.memory.getD i 0 = s.memory.getD i 0) ∧
    (execOps fuel s [Operation.Input] = some (Except.ok s') →
      s'.pointer = s.pointer ∧ s'.stdout = s.stdout ∧
      ∀ i, i ≠ s.pointer → s'.memory.getD i 0 = s.memory.getD i 0) ∧
    (execOps fuel s [Operation.Output] = some (Except.ok s') →
      s'.memory = s.memory ∧ s'.pointer = s.pointer ∧ s'.stdin = s.stdin) := by
  intro fuel s s' n
  refine ⟨?_, ?_, ?_, ?_, ?_, ?_⟩
  · intro h
    rw [execOps_moveRight] at h
    by_cases hc : s.pointer + n ≤ USIZE_MAX
    · by_cases hb : s.memory.length ≤ s.pointer + n
      · rw [if_pos hc, if_pos hb] at h
        simp at h
      · rw [if_pos hc, if_neg hb, execOps_nil] at h
        simp at h
        rw [← h]
        exact ⟨rfl, rfl, rfl⟩
    · rw [if_neg hc] at h
      simp at h
  · intro h
    rw [execOps_moveLeft] at h
    by_cases hc : n ≤ s.pointer
    · rw [if_pos hc, execOps_nil] at h
      simp at h
      rw [← h]
      exact ⟨rfl, rfl, rfl⟩
    · rw [if_neg hc] at h
      simp at h
  · intro h
    rw [execOps_increment] at h
    by_cases hc : s.cell + n ≤ 255
    · rw [if_pos hc, execOps_nil] at h
      simp at h
      rw [← h]
      exact ⟨rfl, rfl, rfl, fun i hi => getD_set_ne _ _ _ _ (fun he => hi he.symm)⟩
    · rw [if_neg hc] at h
      simp at h
  · intro h
    rw [execOps_decrement] at h
    by_cases hc : n ≤ s.cell
    · rw [if_pos hc, execOps_nil] at h
      simp at h
      rw [← h]
      exact ⟨rfl, rfl, rfl, fun i hi => getD_set_ne _ _ _ _ (fun he => hi he.symm)⟩
    · rw [if_neg hc] at h
      simp at h
  · intro h
    rw [execOps_input] at h
    cases he : s.stdin with
    | nil =>
      rw [he, execOps_nil] at h
      simp at h
      rw [← h]
      exact ⟨rfl, rfl, fun i hi => getD_set_ne _ _ _ _ (fun hq => hi hq.symm)⟩
    | cons ev tail =>
      rw [he] at h
      cases ev with
      | byte b =>
        simp [execOps_nil] at h
        rw [← h]
        exact ⟨rfl, rfl, fun i hi => getD_set_ne _ _ _ _ (fun hq => hi hq.symm)⟩
      | ioError => simp at h
  · intro h
    rw [execOps_output, execOps_nil] at h
    simp at h
    rw [← h]
    exact ⟨rfl, rfl, rfl⟩

/-- Witness for C10: a successful `MoveRight 0` on a one-cell tape leaves the
tape, the output and the input stream untouched. -/
theorem c10_frame_witness :
    (⟨[0], 0, [], ""⟩ : Program).memory = (⟨[0], 0, [], ""⟩ : Program).memory ∧
    (⟨[0], 0, [], ""⟩ : Program).stdout = (⟨[0], 0, [], ""⟩ : Program).stdout ∧
    (⟨[0], 0, [], ""⟩ : Program).stdin = (⟨[0], 0, [], ""⟩ : Program).stdin :=
  (c10_frame 0 ⟨[0], 0, [], ""⟩ ⟨[0], 0, [], ""⟩ 0).1
    (by rw [execOps_moveRight]
        norm_num [USIZE_MAX, execOps_nil])

end Brainfuck
